import Mathlib

/-!
Verification development for the policyanalyzer repository.

Strings are modelled as `List Char`.  Python functions from the repository
are translated into executable Lean definitions; the theorems at the end of
the file settle the specification claims against those definitions.
-/

namespace PolicyAnalyzer

/-- ASCII whitespace, as recognized by Python's `str.strip()` and by the
regex class used in `webapp.py` on the ASCII report texts. -/
def isPyWS (c : Char) : Bool :=
  c = ' ' || c = '\t' || c = '\n' || c = '\r' || c = '\x0b' || c = '\x0c'

/-- Python `str.lower()`, restricted to the ASCII data the repository handles. -/
def pyLower (s : List Char) : List Char := s.map Char.toLower

/-- Python `str.strip()` with no argument: drop leading and trailing whitespace. -/
def pyStrip (s : List Char) : List Char :=
  ((s.dropWhile isPyWS).reverse.dropWhile isPyWS).reverse

/-- Python `str.startswith(lit)`. -/
def pyStartsWith (lit s : List Char) : Bool := lit.isPrefixOf s

/-- Python `str.endswith(lit)`. -/
def pyEndsWith (lit s : List Char) : Bool := lit.reverse.isPrefixOf s.reverse

/-! ## Name Matcher (`analyze_all.py`, `sanitize_for_filename` / `find_log_file`) -/

/-- The character-mapping loop of `sanitize_for_filename` (analyze_all.py
lines 94-99): alphanumeric characters are kept, characters in `" -_"` become
`'_'`, everything else is dropped. -/
def sanitizeMap : List Char → List Char
  | [] => []
  | c :: rest =>
    if c.isAlphanum then c :: sanitizeMap rest
    else if c = ' ' || c = '-' || c = '_' then '_' :: sanitizeMap rest
    else sanitizeMap rest

/-- One pass of Python `str.replace("__", "_")`: scan left to right replacing
non-overlapping occurrences of two underscores by one. -/
def replaceDunderOnce : List Char → List Char
  | c₁ :: c₂ :: rest =>
    if c₁ = '_' ∧ c₂ = '_' then '_' :: replaceDunderOnce rest
    else c₁ :: replaceDunderOnce (c₂ :: rest)
  | l => l

/-- Python `"__" in s`: does the string contain two adjacent underscores? -/
def hasDunder : List Char → Bool
  | c₁ :: c₂ :: rest => (c₁ = '_' && c₂ = '_') || hasDunder (c₂ :: rest)
  | _ => false

/-- The `while "__" in sanitized` loop of `sanitize_for_filename`
(analyze_all.py lines 101-102), run with explicit fuel.  Each pass of
`replaceDunderOnce` on a string containing `"__"` strictly shortens it, so
fuel equal to the string length always suffices for the loop to reach its
fixed point. -/
def collapseDunderGo : Nat → List Char → List Char
  | 0, l => l
  | fuel + 1, l => if hasDunder l then collapseDunderGo fuel (replaceDunderOnce l) else l

/-- The underscore-collapsing loop of `sanitize_for_filename`. -/
def collapseDunder (l : List Char) : List Char := collapseDunderGo l.length l

/-- Python `s.strip("_")`: drop leading and trailing underscores. -/
def stripEdgeUnderscores (s : List Char) : List Char :=
  ((s.dropWhile (· = '_')).reverse.dropWhile (· = '_')).reverse

/-- `sanitize_for_filename` from analyze_all.py lines 91-103. -/
def sanitize_for_filename (name : List Char) : List Char :=
  stripEdgeUnderscores (collapseDunder (sanitizeMap name))

/-- Python `s.replace("_", "")`: remove all underscores. -/
def removeUnderscores (s : List Char) : List Char := s.filter (fun c => !(c = '_'))

/-- The loop-body test of `find_log_file` (analyze_all.py lines 114-120):
compare the lowered raw candidate stem with the lowered sanitized agent
name, or the two with all underscores removed. -/
def logNameMatches (sanitizedName logName : List Char) : Bool :=
  pyLower logName = pyLower sanitizedName ||
    pyLower (removeUnderscores logName) = pyLower (removeUnderscores sanitizedName)

/-- `find_log_file` from analyze_all.py lines 106-122, abstracted over the
list of candidate log-file stems that `LOG_OUTPUT_DIR.glob("*.csv")`
enumerates.  The first candidate passing either comparison of
`logNameMatches` is returned. -/
def find_log_file (agentName : List Char) (candidates : List (List Char)) :
    Option (List Char) :=
  candidates.find? (logNameMatches (sanitize_for_filename agentName))

/-- Modelled from the spec (§4.1 Name Matcher), for comparison with
`find_log_file`: "a candidate matches if its own base name, once run through
the same sanitize function, equals `sanitize(agentName)`, OR equals it after
both sides additionally strip all `_` characters", case-insensitively. -/
def specMatchRule (agentName candidate : List Char) : Bool :=
  pyLower (sanitize_for_filename candidate) = pyLower (sanitize_for_filename agentName) ||
    pyLower (removeUnderscores (sanitize_for_filename candidate)) =
      pyLower (removeUnderscores (sanitize_for_filename agentName))

/-! ### Lemmas about `sanitize_for_filename` -/

lemma mem_sanitizeMap {c : Char} : ∀ {l : List Char},
    c ∈ sanitizeMap l → c.isAlphanum = true ∨ c = '_' := by
  intro l
  induction l with
  | nil => simp [sanitizeMap]
  | cons d rest ih =>
    by_cases h1 : d.isAlphanum
    · simp only [sanitizeMap, if_pos h1, List.mem_cons]
      rintro (rfl | hm)
      · exact Or.inl h1
      · exact ih hm
    · by_cases h2 : d = ' ' || d = '-' || d = '_'
      · simp only [sanitizeMap, if_neg h1, if_pos h2, List.mem_cons]
        rintro (rfl | hm)
        · exact Or.inr rfl
        · exact ih hm
      · simp only [sanitizeMap, if_neg h1, if_neg h2]
        exact ih

lemma sanitizeMap_id {l : List Char}
    (h : ∀ c ∈ l, c.isAlphanum = true ∨ c = '_') : sanitizeMap l = l := by
  induction l with
  | nil => rfl
  | cons d rest ih =>
    have hd := h d (List.mem_cons_self d rest)
    have hrest : sanitizeMap rest = rest :=
      ih (fun c hc => h c (List.mem_cons_of_mem d hc))
    rcases hd with hd | hd
    · simp [sanitizeMap, hd, hrest]
    · subst hd
      have : ('_' : Char).isAlphanum = false := by decide
      simp [sanitizeMap, this, hrest]

lemma mem_replaceDunderOnce {c : Char} : ∀ {l : List Char},
    c ∈ replaceDunderOnce l → c ∈ l := by
  intro l
  induction l using replaceDunderOnce.induct with
  | case1 c₁ c₂ rest h ih =>
    obtain ⟨rfl, rfl⟩ := h
    rw [replaceDunderOnce, if_pos (And.intro rfl rfl)]
    intro hm
    rcases List.mem_cons.mp hm with h1 | hm'
    · exact List.mem_cons.mpr (Or.inl h1)
    · exact List.mem_cons_of_mem _ (List.mem_cons_of_mem _ (ih hm'))
  | case2 c₁ c₂ rest h ih =>
    rw [replaceDunderOnce, if_neg h]
    intro hm
    rcases List.mem_cons.mp hm with h1 | hm'
    · exact List.mem_cons.mpr (Or.inl h1)
    · exact List.mem_cons_of_mem _ (ih hm')
  | case3 l h =>
    match l, h with
    | [], _ => exact fun hm => hm
    | [c'], _ => exact fun hm => hm
    | c₁ :: c₂ :: rest, h => exact absurd rfl (h c₁ c₂ rest)

lemma replaceDunderOnce_length_le : ∀ l : List Char,
    (replaceDunderOnce l).length ≤ l.length := by
  intro l
  induction l using replaceDunderOnce.induct with
  | case1 c₁ c₂ rest h ih =>
    rw [replaceDunderOnce, if_pos h]
    simp only [List.length_cons]
    omega
  | case2 c₁ c₂ rest h ih =>
    rw [replaceDunderOnce, if_neg h]
    simp only [List.length_cons] at ih ⊢
    omega
  | case3 l h =>
    match l, h with
    | [], _ => exact le_rfl
    | [c'], _ => exact le_rfl
    | c₁ :: c₂ :: rest, h => exact absurd rfl (h c₁ c₂ rest)

lemma replaceDunderOnce_length_lt : ∀ l : List Char, hasDunder l = true →
    (replaceDunderOnce l).length < l.length := by
  intro l
  induction l using replaceDunderOnce.induct with
  | case1 c₁ c₂ rest h ih =>
    intro _
    have := replaceDunderOnce_length_le rest
    rw [replaceDunderOnce, if_pos h]
    simp only [List.length_cons]
    omega
  | case2 c₁ c₂ rest h ih =>
    intro hd
    have hd' : hasDunder (c₂ :: rest) = true := by
      rcases (by simpa [hasDunder] using hd : (c₁ = '_' ∧ c₂ = '_') ∨
          hasDunder (c₂ :: rest) = true) with hpair | hb
      · exact absurd hpair h
      · exact hb
    have := ih hd'
    rw [replaceDunderOnce, if_neg h]
    simp only [List.length_cons] at this ⊢
    omega
  | case3 l h =>
    intro hd
    exfalso
    match l, h with
    | [], _ => simp [hasDunder] at hd
    | [c'], _ => simp [hasDunder] at hd
    | c₁ :: c₂ :: rest, h => exact absurd rfl (h c₁ c₂ rest)

lemma hasDunder_collapseDunderGo : ∀ (fuel : Nat) (l : List Char),
    l.length ≤ fuel → hasDunder (collapseDunderGo fuel l) = false := by
  intro fuel
  induction fuel with
  | zero =>
    intro l hl
    have : l = [] := List.length_eq_zero.mp (Nat.le_zero.mp hl)
    subst this
    simp [collapseDunderGo, hasDunder]
  | succ n ih =>
    intro l hl
    by_cases h : hasDunder l = true
    · have hlt := replaceDunderOnce_length_lt l h
      simp only [collapseDunderGo, if_pos h]
      exact ih _ (by omega)
    · simp only [collapseDunderGo, if_neg h]
      exact Bool.not_eq_true _ ▸ (Bool.eq_false_iff.mpr h)

lemma mem_collapseDunderGo {c : Char} : ∀ (fuel : Nat) (l : List Char),
    c ∈ collapseDunderGo fuel l → c ∈ l := by
  intro fuel
  induction fuel with
  | zero => intro l; simp [collapseDunderGo]
  | succ n ih =>
    intro l
    by_cases h : hasDunder l = true
    · simp only [collapseDunderGo, if_pos h]
      exact fun hm => mem_replaceDunderOnce (ih _ hm)
    · simp only [collapseDunderGo, if_neg h]
      exact id

lemma hasDunder_collapseDunder (l : List Char) :
    hasDunder (collapseDunder l) = false :=
  hasDunder_collapseDunderGo l.length l le_rfl

lemma collapseDunder_of_not_hasDunder {l : List Char} (h : hasDunder l = false) :
    collapseDunder l = l := by
  unfold collapseDunder
  cases hl : l.length with
  | zero => simp [collapseDunderGo]
  | succ n => simp [collapseDunderGo, h]

/-- `hasDunder` holds exactly when `"__"` is a contiguous substring. -/
lemma hasDunder_iff_isInfix : ∀ {l : List Char},
    hasDunder l = true ↔ ['_', '_'] <:+: l := by
  intro l
  induction l with
  | nil =>
    constructor
    · intro h; simp [hasDunder] at h
    · intro h
      have := h.length_le
      simp at this
  | cons c rest ih =>
    cases rest with
    | nil =>
      constructor
      · intro h; simp [hasDunder] at h
      · intro h
        have := h.length_le
        simp at this
    | cons d rest' =>
      constructor
      · intro h
        rcases (by simpa [hasDunder] using h : (c = '_' ∧ d = '_') ∨
            hasDunder (d :: rest') = true) with ⟨h1, h2⟩ | hb
        · subst h1; subst h2
          exact ⟨[], rest', by simp⟩
        · obtain ⟨s, t, hst⟩ := ih.mp hb
          exact ⟨c :: s, t, by rw [← hst]; simp⟩
      · intro h
        rcases List.infix_cons_iff.mp h with hp | hin
        · rcases List.cons_prefix_cons.mp hp with ⟨h1, hp'⟩
          rcases List.cons_prefix_cons.mp hp' with ⟨h2, _⟩
          simp [hasDunder, h1.symm, h2.symm]
        · have : hasDunder (d :: rest') = true := ih.mpr hin
          simp [hasDunder, this]

lemma hasDunder_eq_false_of_isInfix {l₁ l₂ : List Char} (hsub : l₁ <:+: l₂)
    (h : hasDunder l₂ = false) : hasDunder l₁ = false := by
  by_contra hne
  have h1 : hasDunder l₁ = true := Bool.not_eq_false _ ▸ hne
  have := hasDunder_iff_isInfix.mp h1
  have : hasDunder l₂ = true := hasDunder_iff_isInfix.mpr (this.trans hsub)
  simp [this] at h

lemma hasDunder_stripEdgeUnderscores {l : List Char} (h : hasDunder l = false) :
    hasDunder (stripEdgeUnderscores l) = false := by
  unfold stripEdgeUnderscores
  have s1 : l.dropWhile (· = '_') <:+ l := List.dropWhile_suffix _
  have s2 : (l.dropWhile (· = '_')).reverse.dropWhile (· = '_') <:+
      (l.dropWhile (· = '_')).reverse := List.dropWhile_suffix _
  have hinner : hasDunder (l.dropWhile (· = '_')) = false :=
    hasDunder_eq_false_of_isInfix s1.isInfix h
  have hrev : hasDunder (l.dropWhile (· = '_')).reverse = false := by
    by_contra hne
    have h1 : hasDunder (l.dropWhile (· = '_')).reverse = true := Bool.not_eq_false _ ▸ hne
    have h2 := hasDunder_iff_isInfix.mp h1
    have h3 : (['_', '_'] : List Char).reverse <:+: (l.dropWhile (· = '_')).reverse := by
      simpa using h2
    have h4 := List.reverse_infix.mp h3
    have := hasDunder_iff_isInfix.mpr h4
    simp [this] at hinner
  have houter : hasDunder ((l.dropWhile (· = '_')).reverse.dropWhile (· = '_')) = false :=
    hasDunder_eq_false_of_isInfix s2.isInfix hrev
  by_contra hne
  have h1 : hasDunder ((l.dropWhile (· = '_')).reverse.dropWhile (· = '_')).reverse = true :=
    Bool.not_eq_false _ ▸ hne
  have h2 := hasDunder_iff_isInfix.mp h1
  have h3 : (['_', '_'] : List Char).reverse <:+:
      ((l.dropWhile (· = '_')).reverse.dropWhile (· = '_')).reverse := by simpa using h2
  have h4 := List.reverse_infix.mp h3
  have := hasDunder_iff_isInfix.mpr h4
  simp [this] at houter

lemma mem_stripEdgeUnderscores {c : Char} {l : List Char}
    (h : c ∈ stripEdgeUnderscores l) : c ∈ l := by
  unfold stripEdgeUnderscores at h
  have h1 := List.mem_reverse.mp h
  have h2 := (@List.dropWhile_suffix Char ((l.dropWhile (· = '_')).reverse)
    (· = '_')).subset h1
  have h3 := List.mem_reverse.mp h2
  exact (@List.dropWhile_suffix Char l (· = '_')).subset h3

lemma dropWhile_idem (p : Char → Bool) (l : List Char) :
    (l.dropWhile p).dropWhile p = l.dropWhile p := by
  induction l with
  | nil => rfl
  | cons c rest ih =>
    by_cases h : p c = true
    · simpa [List.dropWhile_cons, h] using ih
    · simp [List.dropWhile_cons, h]

lemma stripEdgeUnderscores_idem (l : List Char) :
    stripEdgeUnderscores (stripEdgeUnderscores l) = stripEdgeUnderscores l := by
  unfold stripEdgeUnderscores
  set p : Char → Bool := (· = '_') with hp
  set A := l.dropWhile p with hA
  set V := A.reverse.dropWhile p with hV
  -- the inner dropWhile on `V.reverse`: `V.reverse` is a prefix of `A`,
  -- whose head (if any) does not satisfy `p`, so dropWhile leaves it unchanged.
  have hpref : V.reverse <+: A := by
    have : V <:+ A.reverse := List.dropWhile_suffix p
    have := List.reverse_prefix.mpr this
    simpa using this
  have hdropV : V.reverse.dropWhile p = V.reverse := by
    cases hVr : V.reverse with
    | nil => rfl
    | cons c rest =>
      obtain ⟨t, ht⟩ := hpref
      rw [hVr] at ht
      have hA' : A = c :: (rest ++ t) := by
        rw [← ht]; simp
      have hc : p c = false := by
        have : A.dropWhile p = A := dropWhile_idem p l
        rw [hA'] at this
        by_contra hne
        have hc' : p c = true := Bool.not_eq_false _ ▸ hne
        rw [List.dropWhile_cons, if_pos hc'] at this
        have hlen := congrArg List.length this
        have hle := (@List.dropWhile_suffix Char (rest ++ t) p).length_le
        simp only [List.length_cons] at hlen
        omega
      simp [List.dropWhile_cons, hc]
  rw [hdropV]
  have : V.dropWhile p = V := dropWhile_idem p A.reverse
  rw [List.reverse_reverse, this]

/-- Characters of the sanitized output are alphanumeric or underscore. -/
lemma mem_sanitize {c : Char} {x : List Char} (h : c ∈ sanitize_for_filename x) :
    c.isAlphanum = true ∨ c = '_' :=
  mem_sanitizeMap (mem_collapseDunderGo _ _ (mem_stripEdgeUnderscores h))

lemma sanitize_no_dunder (x : List Char) :
    hasDunder (sanitize_for_filename x) = false :=
  hasDunder_stripEdgeUnderscores (hasDunder_collapseDunder _)

lemma sanitize_idem (x : List Char) :
    sanitize_for_filename (sanitize_for_filename x) = sanitize_for_filename x := by
  have h1 : sanitizeMap (sanitize_for_filename x) = sanitize_for_filename x :=
    sanitizeMap_id (fun c hc => mem_sanitize hc)
  have h2 : collapseDunder (sanitize_for_filename x) = sanitize_for_filename x :=
    collapseDunder_of_not_hasDunder (sanitize_no_dunder x)
  show stripEdgeUnderscores (collapseDunder (sanitizeMap (sanitize_for_filename x))) =
    sanitize_for_filename x
  rw [h1, h2]
  exact stripEdgeUnderscores_idem _

/-! ## Fan-Out Scheduler (`analyze_all.py`, `run_policy_analyzer` and `main`) -/

/-- Outcome of the `subprocess.run` call inside `run_policy_analyzer`
(analyze_all.py lines 169-178): either the subprocess completes with an exit
code, stdout and stderr, or the call raises an exception. -/
inductive SubprocessOutcome where
  | completed (returncode : Int) (stdout stderr : List Char)
  | raised (message : List Char)
deriving DecidableEq

/-- `run_policy_analyzer` (analyze_all.py lines 140-178), abstracted over the
subprocess outcome and the measured wall-clock duration.  Returns
`(success, output, elapsed)`: on a non-zero exit code the output is the
subprocess stderr, or `"Unknown error"` when stderr is empty (Python's
`result.stderr or "Unknown error"`); on an exception the output is the
exception text and the elapsed time is 0.0. -/
def run_policy_analyzer (outcome : SubprocessOutcome) (elapsed : Nat) :
    Bool × List Char × Nat :=
  match outcome with
  | .completed rc stdout stderr =>
      if rc ≠ 0 then (false, if stderr = [] then "Unknown error".data else stderr, elapsed)
      else (true, stdout, elapsed)
  | .raised msg => (false, msg, 0)

/-- An agent info dict as built by `load_agent_info` plus the log file
attached in `main` (analyze_all.py lines 125-137 and 267-273). -/
structure AgentInfo where
  id : List Char
  name : List Char
  logFile : Option (List Char)
deriving DecidableEq

/-- The result dict built by `analyze_agent` inside `main`
(analyze_all.py lines 301-327). -/
structure WorkResult where
  idx : Nat
  agentId : List Char
  agentName : List Char
  success : Bool
  output : List Char
  hadLog : Bool
  elapsed : Nat
  logFile : Option (List Char)
deriving DecidableEq

/-- `analyze_agent` from `main` (analyze_all.py lines 301-327): run the
policy analyzer on one `(index, agent)` pair and package the outcome.  The
external invocation is abstracted as a function giving each agent's
subprocess outcome, and the wall clock as a function giving each agent's
elapsed duration. -/
def analyze_agent (invoke : AgentInfo → SubprocessOutcome) (timing : AgentInfo → Nat)
    (p : Nat × AgentInfo) : WorkResult :=
  { idx := p.1,
    agentId := p.2.id,
    agentName := p.2.name,
    success := (run_policy_analyzer (invoke p.2) (timing p.2)).1,
    output := (run_policy_analyzer (invoke p.2) (timing p.2)).2.1,
    hadLog := (p.2.logFile).isSome,
    elapsed := (run_policy_analyzer (invoke p.2) (timing p.2)).2.2,
    logFile := p.2.logFile }

/-- Stable insertion into a list sorted by `key`: the new element goes after
every element whose key is less than or equal to its own.  Together with
`sortByKey` this models Python's stable `list.sort(key=...)`. -/
def insertByKey {α β : Type} [LinearOrder β] (key : α → β) (x : α) : List α → List α
  | [] => [x]
  | y :: ys => if key y ≤ key x then y :: insertByKey key x ys else x :: y :: ys

/-- Model of Python's stable `list.sort(key=...)` / `sorted(key=...)`. -/
def sortByKey {α β : Type} [LinearOrder β] (key : α → β) (l : List α) : List α :=
  l.foldl (fun acc x => insertByKey key x acc) []

/-- The result-collection phase of `main` (analyze_all.py lines 329-354).
With `--parallel 1` the items are analyzed strictly in submission order
(`enumerate(agents, 1)`); with a larger pool the results arrive in completion
order, modelled by an explicit `completionOrder` sequencing of the submitted
`(index, agent)` pairs.  Both paths end with
`results.sort(key=lambda x: x["idx"])` (line 354). -/
def runScheduler (invoke : AgentInfo → SubprocessOutcome) (timing : AgentInfo → Nat)
    (parallelArg : Int) (agents : List AgentInfo)
    (completionOrder : List (Nat × AgentInfo)) : List WorkResult :=
  let parallel := max 1 parallelArg
  let results :=
    if parallel = 1 then (List.enumFrom 1 agents).map (analyze_agent invoke timing)
    else completionOrder.map (analyze_agent invoke timing)
  sortByKey (fun r => r.idx) results

/-- The summary block of `main` (analyze_all.py lines 384-401): total item
count, count of successful results, count of results that had a log file,
and the summed per-item analysis time. -/
structure RunSummary where
  total : Nat
  successful : Nat
  withLogs : Nat
  analysisTime : Nat
deriving DecidableEq

/-- The counts printed by the SUMMARY section of `main`. -/
def summarize (results : List WorkResult) : RunSummary :=
  { total := results.length,
    successful := results.countP (fun r => r.success),
    withLogs := results.countP (fun r => r.hadLog),
    analysisTime := (results.map (fun r => r.elapsed)).sum }

/-! ### Lemmas about `sortByKey` and the scheduler -/

lemma insertByKey_perm {α β : Type} [LinearOrder β] (key : α → β) (x : α) :
    ∀ l : List α, (insertByKey key x l).Perm (x :: l) := by
  intro l
  induction l with
  | nil => exact List.Perm.refl _
  | cons y ys ih =>
    by_cases h : key y ≤ key x
    · rw [insertByKey, if_pos h]
      exact (ih.cons y).trans (List.Perm.swap x y ys)
    · rw [insertByKey, if_neg h]

lemma sortByKey_perm {α β : Type} [LinearOrder β] (key : α → β) (l : List α) :
    (sortByKey key l).Perm l := by
  suffices h : ∀ (l acc : List α),
      (l.foldl (fun acc x => insertByKey key x acc) acc).Perm (acc ++ l) by
    simpa using h l []
  intro l
  induction l with
  | nil => intro acc; simp
  | cons x xs ih =>
    intro acc
    have h1 := ih (insertByKey key x acc)
    have h2 : (insertByKey key x acc ++ xs).Perm ((x :: acc) ++ xs) :=
      (insertByKey_perm key x acc).append_right xs
    have h3 : ((x :: acc) ++ xs).Perm (acc ++ x :: xs) := List.perm_middle.symm
    exact (h1.trans h2).trans h3

lemma insertByKey_pairwise {α β : Type} [LinearOrder β] (key : α → β) (x : α)
    {l : List α} (h : l.Pairwise (fun a b => key a ≤ key b)) :
    (insertByKey key x l).Pairwise (fun a b => key a ≤ key b) := by
  induction l with
  | nil => simp [insertByKey]
  | cons y ys ih =>
    rcases List.pairwise_cons.mp h with ⟨hy, hys⟩
    by_cases hxy : key y ≤ key x
    · rw [insertByKey, if_pos hxy]
      refine List.pairwise_cons.mpr ⟨?_, ih hys⟩
      intro b hb
      have hb' : b ∈ x :: ys := ((insertByKey_perm key x ys).mem_iff).mp hb
      rcases List.mem_cons.mp hb' with rfl | hb''
      · exact hxy
      · exact hy b hb''
    · rw [insertByKey, if_neg hxy]
      refine List.pairwise_cons.mpr ⟨?_, h⟩
      intro b hb
      rcases List.mem_cons.mp hb with rfl | hb
      · exact le_of_not_le hxy
      · exact le_trans (le_of_not_le hxy) (hy b hb)

lemma sortByKey_pairwise {α β : Type} [LinearOrder β] (key : α → β) (l : List α) :
    (sortByKey key l).Pairwise (fun a b => key a ≤ key b) := by
  suffices h : ∀ (l acc : List α), acc.Pairwise (fun a b => key a ≤ key b) →
      (l.foldl (fun acc x => insertByKey key x acc) acc).Pairwise
        (fun a b => key a ≤ key b) by
    exact h l [] (List.Pairwise.nil)
  intro l
  induction l with
  | nil => intro acc hacc; simpa using hacc
  | cons x xs ih =>
    intro acc hacc
    exact ih _ (insertByKey_pairwise key x hacc)

/-- Sorting a permutation of a strictly key-sorted list recovers that list:
with all keys distinct there is exactly one sorted arrangement. -/
lemma sortByKey_eq_of_perm_of_strict {α β : Type} [LinearOrder β] (key : α → β)
    {l c : List α} (hp : l.Perm c) (hs : c.Pairwise (fun a b => key a < key b)) :
    sortByKey key l = c := by
  have hperm : (sortByKey key l).Perm c := (sortByKey_perm key l).trans hp
  have hle : (sortByKey key l).Pairwise (fun a b => key a ≤ key b) :=
    sortByKey_pairwise key l
  have hnodupc : (c.map key).Nodup := by
    have h1 : c.Pairwise (fun a b => key a ≠ key b) := hs.imp (fun h => h.ne)
    exact List.pairwise_map.mpr h1
  have hnodup : ((sortByKey key l).map key).Nodup :=
    ((hperm.map key).nodup_iff).mpr hnodupc
  have hne : (sortByKey key l).Pairwise (fun a b => key a ≠ key b) :=
    List.pairwise_map.mp hnodup
  have hlt : (sortByKey key l).Pairwise (fun a b => key a < key b) :=
    (hle.and hne).imp (fun h => lt_of_le_of_ne h.1 h.2)
  haveI : IsAntisymm α (fun a b => key a < key b) :=
    ⟨fun a b h1 h2 => absurd h1 (lt_asymm h2)⟩
  exact List.eq_of_perm_of_sorted hperm hlt hs

lemma le_fst_of_mem_enumFrom {α : Type} {p : Nat × α} :
    ∀ {n : Nat} {l : List α}, p ∈ List.enumFrom n l → n ≤ p.1 := by
  intro n l
  induction l generalizing n with
  | nil => simp [List.enumFrom]
  | cons a as ih =>
    intro hm
    rcases List.mem_cons.mp hm with rfl | hm
    · exact le_rfl
    · exact le_trans (Nat.le_succ n) (ih hm)

lemma pairwise_fst_lt_enumFrom {α : Type} :
    ∀ (n : Nat) (l : List α), (List.enumFrom n l).Pairwise (fun p q => p.1 < q.1) := by
  intro n l
  induction l generalizing n with
  | nil => simp [List.enumFrom]
  | cons a as ih =>
    refine List.pairwise_cons.mpr ⟨?_, ih (n + 1)⟩
    intro q hq
    exact lt_of_lt_of_le (Nat.lt_succ_self n) (le_fst_of_mem_enumFrom hq)

/-- The submission-ordered result list has strictly increasing indices. -/
lemma submission_pairwise_idx (invoke : AgentInfo → SubprocessOutcome)
    (timing : AgentInfo → Nat) (agents : List AgentInfo) :
    ((List.enumFrom 1 agents).map (analyze_agent invoke timing)).Pairwise
      (fun a b => a.idx < b.idx) := by
  refine List.pairwise_map.mpr ?_
  refine (pairwise_fst_lt_enumFrom 1 agents).imp ?_
  intro p q h
  exact h

/-- Canonical form of the scheduler output: whatever the concurrency setting
and completion order, the final sort restores submission order. -/
lemma runScheduler_eq_submission (invoke : AgentInfo → SubprocessOutcome)
    (timing : AgentInfo → Nat) (parallelArg : Int) (agents : List AgentInfo)
    {completionOrder : List (Nat × AgentInfo)}
    (hperm : completionOrder.Perm (List.enumFrom 1 agents)) :
    runScheduler invoke timing parallelArg agents completionOrder
      = (List.enumFrom 1 agents).map (analyze_agent invoke timing) := by
  have hstrict := submission_pairwise_idx invoke timing agents
  unfold runScheduler
  by_cases h : max 1 parallelArg = 1
  · simp only [h, if_pos rfl]
    exact sortByKey_eq_of_perm_of_strict _ (List.Perm.refl _) hstrict
  · simp only [if_neg h]
    exact sortByKey_eq_of_perm_of_strict _ (hperm.map _) hstrict

/-! ## Report Parser and Verdict Classifier (`webapp.py`, `parse_analysis_file`)

The three detection tiers of `parse_analysis_file` are regular-expression
searches over the lowercased file content.  On every concrete text the
backtracking of these particular patterns is deterministic (each optional or
starred piece is followed by a piece that cannot consume the same
characters), so they are embedded as maximal-munch matchers; leftmost-match
search is the positionwise scan `searchAt`. -/

/-- Match a literal at the head of the text, returning the remainder. -/
def stripLit : List Char → List Char → Option (List Char)
  | [], s => some s
  | _ :: _, [] => none
  | c :: cs, d :: ds => if c = d then stripLit cs ds else none

/-- Maximal munch of the regex `\s*`. -/
def dropWS (s : List Char) : List Char := s.dropWhile isPyWS

/-- The regex `\s+`: at least one whitespace character, maximal munch. -/
def dropWS1 : List Char → Option (List Char)
  | [] => none
  | c :: rest => if isPyWS c then some (dropWS rest) else none

/-- The compliance verdicts assigned by `parse_analysis_file`. -/
inductive Verdict where
  | compliant
  | partiallyCompliant
  | nonCompliant
  | unknown
deriving DecidableEq

/-- The `rating` string stored by `parse_analysis_file` for each verdict. -/
def verdictText : Verdict → List Char
  | .compliant => "Compliant".data
  | .partiallyCompliant => "Partially Compliant".data
  | .nonCompliant => "Non-Compliant".data
  | .unknown => "Unknown".data

/-- The `rating_class` string stored by `parse_analysis_file`. -/
def verdictClass : Verdict → List Char
  | .compliant => "compliant".data
  | .partiallyCompliant => "partial".data
  | .nonCompliant => "non-compliant".data
  | .unknown => "unknown".data

/-- The `rating_short` code stored by `parse_analysis_file`. -/
def verdictShort : Verdict → List Char
  | .compliant => "C".data
  | .partiallyCompliant => "PC".data
  | .nonCompliant => "NC".data
  | .unknown => "?".data

/-- Match `non[- ]?compliant` at the head of lowered text.  The optional
character is forced by the text (a `-` or space can never start
`compliant`), so no backtracking into the option is needed. -/
def matchNonCompliant (s : List Char) : Option (List Char) :=
  match stripLit "non".data s with
  | none => none
  | some r =>
    match r with
    | [] => none
    | c :: r' =>
        if c = '-' || c = ' ' then stripLit "compliant".data r'
        else stripLit "compliant".data r

/-- Match `partially\s+compliant` at the head of lowered text. -/
def matchPartially (s : List Char) : Option (List Char) :=
  match stripLit "partially".data s with
  | none => none
  | some r =>
    match dropWS1 r with
    | none => none
    | some r' => stripLit "compliant".data r'

/-- Match the verdict-phrase alternation
`(non[- ]?compliant|partially\s+compliant|compliant)` at the head of lowered
text, in the regex's alternation order, returning the verdict that
`parse_analysis_file` derives from the matched group (`'non' in detected`,
then `'partial' in detected`, else compliant) and the remaining text. -/
def matchVerdictPhrase (s : List Char) : Option (Verdict × List Char) :=
  match matchNonCompliant s with
  | some r => some (.nonCompliant, r)
  | none =>
    match matchPartially s with
    | some r => some (.partiallyCompliant, r)
    | none =>
      match stripLit "compliant".data s with
      | some r => some (.compliant, r)
      | none => none

/-- The tier-1 pattern after its optional `overall` prefix:
`compliance\s+rating[:\s]*\n*\s*[#*]*\s*(...)`. -/
def tier1Core (s : List Char) : Option Verdict :=
  match stripLit "compliance".data s with
  | none => none
  | some r =>
    match dropWS1 r with
    | none => none
    | some r₁ =>
      match stripLit "rating".data r₁ with
      | none => none
      | some r₂ =>
        let r₃ := r₂.dropWhile (fun c => c = ':' || isPyWS c)
        let r₄ := r₃.dropWhile (fun c => c = '\n')
        let r₅ := dropWS r₄
        let r₆ := r₅.dropWhile (fun c => c = '#' || c = '*')
        let r₇ := dropWS r₆
        (matchVerdictPhrase r₇).map Prod.fst

/-- Tier-1 match attempt at one position: the regex
`(?:overall\s+)?compliance\s+rating[:\s]*\n*\s*[#*]*\s*(non[- ]?compliant|partially\s+compliant|compliant)`
of webapp.py lines 712-715.  If the `overall` prefix is present but the rest
fails, the prefixless attempt at the same position also fails (no
alternative starts with `o`), so committing to the prefix is faithful. -/
def tier1At (s : List Char) : Option Verdict :=
  match stripLit "overall".data s with
  | some r =>
    match dropWS1 r with
    | some r' => tier1Core r'
    | none => none
  | none => tier1Core s

/-- Tier-2 match attempt at one position: the regex
`\*\*(?:rating:\s*)?(non[- ]?compliant|partially\s+compliant|compliant)\*\*`
of webapp.py lines 718-721.  As with tier 1, committing to a present
`rating:` prefix is faithful, since no alternative starts with `r`. -/
def tier2At (s : List Char) : Option Verdict :=
  match stripLit "**".data s with
  | none => none
  | some r =>
    let r' := match stripLit "rating:".data r with
              | some r₂ => dropWS r₂
              | none => r
    match matchVerdictPhrase r' with
    | none => none
    | some (v, rest) =>
      match stripLit "**".data rest with
      | some _ => some v
      | none => none

/-- `re.search`: try the pattern at every position from the left; the
leftmost matching position wins. -/
def searchAt (patternAt : List Char → Option Verdict) : List Char → Option Verdict
  | [] => patternAt []
  | c :: rest =>
    match patternAt (c :: rest) with
    | some v => some v
    | none => searchAt patternAt rest

/-- One match attempt of `\*\*non[- ]?compliant\*\*` at a position
(tier-3 counting pattern, webapp.py line 739). -/
def tryNCAt (s : List Char) : Option (List Char) :=
  match stripLit "**".data s with
  | none => none
  | some r =>
    match matchNonCompliant r with
    | none => none
    | some r' => stripLit "**".data r'

/-- One match attempt of `\*\*compliant\*\*` at a position
(tier-3 counting pattern, webapp.py line 740). -/
def tryCAt (s : List Char) : Option (List Char) :=
  stripLit "**compliant**".data s

/-- One match attempt of `\*\*partially compliant\*\*` (literal single
space) at a position (tier-3 counting pattern, webapp.py line 741). -/
def tryPCAt (s : List Char) : Option (List Char) :=
  stripLit "**partially compliant**".data s

/-- `len(re.findall(...))`: count non-overlapping leftmost matches, with
fuel.  Fuel equal to the text length always suffices: every pattern used
here consumes at least one character. -/
def countMatchesGo (patternAt : List Char → Option (List Char)) :
    Nat → List Char → Nat
  | 0, _ => 0
  | _ + 1, [] => 0
  | fuel + 1, c :: rest =>
    match patternAt (c :: rest) with
    | some r => 1 + countMatchesGo patternAt fuel r
    | none => countMatchesGo patternAt fuel rest

/-- `len(re.findall(pattern, text))` for the tier-3 patterns. -/
def countMatches (patternAt : List Char → Option (List Char)) (s : List Char) : Nat :=
  countMatchesGo patternAt s.length s

/-- The rating-detection block of `parse_analysis_file` (webapp.py lines
703-754), applied to the lowercased full file content: tier 1 searches for a
compliance-rating declaration section, tier 2 for an emphasized verdict
phrase, and otherwise the frequency-voting fallback compares the emphasized
occurrence counts.  The compliant count subtracts the non-compliant count
and is therefore an integer. -/
def detectRating (contentLower : List Char) : Verdict :=
  match searchAt tier1At contentLower with
  | some v => v
  | none =>
    match searchAt tier2At contentLower with
    | some v => v
    | none =>
      let nonCompliantCount := countMatches tryNCAt contentLower
      let compliantCount : Int :=
        (countMatches tryCAt contentLower : Int) - (nonCompliantCount : Int)
      let partialCount := countMatches tryPCAt contentLower
      if partialCount > 0 ∧ partialCount ≥ nonCompliantCount then .partiallyCompliant
      else if (nonCompliantCount : Int) > compliantCount then .nonCompliant
      else if compliantCount > 0 then .compliant
      else .unknown

/-- Result of the header-scanning loop of `parse_analysis_file`
(webapp.py lines 658-677). -/
structure HeaderScan where
  agentName : List Char
  agentId : List Char
  logFile : Option (List Char)
  regulation : List Char
  headerEnd : Nat
deriving DecidableEq

/-- The header-scanning loop: recognize the fixed `Key: ` prefixes line by
line, a later match of the same key overwriting an earlier one, and stop at
the first line starting with ten `=` characters, recording
`header_end = i + 1`. -/
def headerScanGo : List (List Char) → Nat → HeaderScan → HeaderScan
  | [], _, st => st
  | line :: rest, i, st =>
    if pyStartsWith "Agent: ".data line then
      headerScanGo rest (i + 1) { st with agentName := line.drop 7 }
    else if pyStartsWith "ID: ".data line then
      headerScanGo rest (i + 1) { st with agentId := line.drop 4 }
    else if pyStartsWith "Log file: ".data line then
      headerScanGo rest (i + 1)
        { st with logFile := if line.drop 10 = "None".data then none else some (line.drop 10) }
    else if pyStartsWith "Regulation: ".data line then
      headerScanGo rest (i + 1) { st with regulation := line.drop 12 }
    else if pyStartsWith (List.replicate 10 '=') line then
      { st with headerEnd := i + 1 }
    else
      headerScanGo rest (i + 1) st

/-- Header scanning over the split lines, starting from empty fields. -/
def headerScan (lines : List (List Char)) : HeaderScan :=
  headerScanGo lines 0
    { agentName := [], agentId := [], logFile := none, regulation := [], headerEnd := 0 }

/-- Python `s.rsplit('_', 1)`: split at the last underscore; `none` when the
string contains no underscore (the one-element result list). -/
def rsplitUnderscoreOnce (s : List Char) : Option (List Char × List Char) :=
  match s.reverse.dropWhile (fun c => !(c = '_')) with
  | [] => none
  | _ :: beforeRev =>
      some (beforeRev.reverse, (s.reverse.takeWhile (fun c => !(c = '_'))).reverse)

/-- Python `str.isupper()` on ASCII data: at least one cased character and
no lowercase character. -/
def pyIsUpper (s : List Char) : Bool :=
  s.any (fun c => c.isUpper || c.isLower) && s.all (fun c => !c.isLower)

/-- The filename-recovery block of `parse_analysis_file` (webapp.py lines
679-695): when the stem ends in `_analysis`, strip that suffix, split at the
last underscore, and accept the split only when the trailing segment is
fully upper-case or equals the allow-listed `ePrivacy_Directive` (which, as
it contains an underscore itself, can never equal a segment produced by the
last-underscore split).  On acceptance the trailing segment with `_`
replaced by `-` is the candidate regulation and the leading segment the
candidate agent id. -/
def recoverFromStem (stem : List Char) : Option (List Char × List Char) :=
  if pyEndsWith "_analysis".data stem then
    match rsplitUnderscoreOnce (stem.take (stem.length - 9)) with
    | some (potentialId, potentialReg) =>
        if pyIsUpper potentialReg || potentialReg = "ePrivacy_Directive".data then
          some (potentialId, potentialReg.map (fun c => if c = '_' then '-' else c))
        else none
    | none => none
  else none

/-- Python `'\n'.join(lines)`. -/
def joinNL (lines : List (List Char)) : List Char := List.intercalate ['\n'] lines

/-- The record returned by `parse_analysis_file` (webapp.py lines 756-766),
without the `file` handle. -/
structure ParsedAnalysis where
  agentId : List Char
  agentName : List Char
  regulation : List Char
  hasLog : Bool
  rating : List Char
  ratingClass : List Char
  ratingShort : List Char
  content : List Char
deriving DecidableEq

/-- `parse_analysis_file` (webapp.py lines 653-766), abstracted over the
file's text `content` and base name `stem` (`filepath.stem`).  The function
is total: missing header fields degrade to filename recovery and safe
defaults, and the rating detection runs on the lowercased full content. -/
def parse_analysis_file (stem content : List Char) : ParsedAnalysis :=
  let lines := content.splitOn '\n'
  let hs := headerScan lines
  let recovered :=
    if hs.agentId = [] || hs.regulation = [] then recoverFromStem stem else none
  let regulation :=
    match recovered with
    | some pr => if hs.regulation = [] then pr.2 else hs.regulation
    | none => hs.regulation
  let agentId0 :=
    match recovered with
    | some pr => if hs.agentId = [] then pr.1 else hs.agentId
    | none => hs.agentId
  let agentId := if agentId0 = [] then stem else agentId0
  let verdict := detectRating (pyLower content)
  { agentId := agentId,
    agentName := if hs.agentName = [] then agentId else hs.agentName,
    regulation := regulation,
    hasLog := hs.logFile.isSome,
    rating := verdictText verdict,
    ratingClass := verdictClass verdict,
    ratingShort := verdictShort verdict,
    content := pyStrip (joinNL (lines.drop hs.headerEnd)) }

/-! ### Lemmas about the pattern matchers -/

lemma stripLit_ne_head {c d : Char} {lit s : List Char} (h : c ≠ d) :
    stripLit (c :: lit) (d :: s) = none := by
  show (if c = d then stripLit lit s else none) = none
  rw [if_neg h]

lemma stripLit_some_decomp : ∀ {lit s r : List Char},
    stripLit lit s = some r → s = lit ++ r := by
  intro lit
  induction lit with
  | nil =>
    intro s r h
    simp only [stripLit, Option.some_inj] at h
    simp [h]
  | cons c cs ih =>
    intro s r h
    cases s with
    | nil => exact absurd h (by simp [stripLit])
    | cons d ds =>
      by_cases hcd : c = d
      · subst hcd
        have h' : stripLit cs ds = some r := by
          simpa [stripLit] using h
        simp [ih h']
      · exact absurd h (by simp [stripLit, hcd])

lemma stripLit_self_append (lit s : List Char) : stripLit lit (lit ++ s) = some s := by
  induction lit with
  | nil => rfl
  | cons c cs ih => simpa [stripLit] using ih

lemma stripLit_suffix {lit s r : List Char} (h : stripLit lit s = some r) : r <:+ s := by
  rw [stripLit_some_decomp h]
  exact ⟨lit, rfl⟩

lemma dropWS1_suffix {s r : List Char} (h : dropWS1 s = some r) : r <:+ s := by
  cases s with
  | nil => exact absurd h (by simp [dropWS1])
  | cons c rest =>
    by_cases hws : isPyWS c
    · have h' : r = dropWS rest := by
        have := h
        simp only [dropWS1, if_pos hws, Option.some_inj] at this
        exact this.symm
      subst h'
      exact (List.dropWhile_suffix isPyWS).trans (List.suffix_cons c rest)
    · exact absurd h (by simp [dropWS1, hws])

/-- `re.search` finds no match exactly when the pattern fails at every
suffix position. -/
lemma searchAt_eq_none_iff (patternAt : List Char → Option Verdict) :
    ∀ t : List Char, searchAt patternAt t = none ↔
      ∀ s, s <:+ t → patternAt s = none := by
  intro t
  induction t with
  | nil =>
    constructor
    · intro h s hs
      rw [List.suffix_nil.mp hs]
      exact h
    · intro h
      exact h [] (List.suffix_refl [])
  | cons c rest ih =>
    constructor
    · intro h s hs
      rcases List.suffix_cons_iff.mp hs with rfl | hs'
      · cases hp : patternAt (c :: rest) with
        | none => rfl
        | some v => rw [searchAt, hp] at h; cases h
      · cases hp : patternAt (c :: rest) with
        | none =>
          rw [searchAt, hp] at h
          exact (ih.mp h) s hs'
        | some v => rw [searchAt, hp] at h; cases h
    · intro h
      rw [searchAt, h (c :: rest) (List.suffix_refl _)]
      exact ih.mpr (fun s hs => h s (hs.trans (List.suffix_cons c rest)))

/-- Decompose a suffix of an append: it lies in the right part, or it is a
nonempty suffix of the left part followed by the whole right part. -/
lemma suffix_append_cases {s A B : List Char} (h : s <:+ A ++ B) :
    s <:+ B ∨ ∃ t, t <:+ A ∧ t ≠ [] ∧ s = t ++ B := by
  induction A with
  | nil => exact Or.inl (by simpa using h)
  | cons c A' ih =>
    rcases List.suffix_cons_iff.mp h with rfl | hs
    · exact Or.inr ⟨c :: A', List.suffix_refl _, by simp, rfl⟩
    · rcases ih hs with h1 | ⟨t, ht, hne, rfl⟩
      · exact Or.inl h1
      · exact Or.inr ⟨t, ht.trans (List.suffix_cons c A'), hne, rfl⟩

/-- A tier-1 match requires `compliance` to occur at some suffix position. -/
lemma tier1At_eq_none_of_noCompliance {s : List Char}
    (h : ∀ r, r <:+ s → stripLit ("compliance".data) r = none) :
    tier1At s = none := by
  have hcore : ∀ u, u <:+ s → tier1Core u = none := by
    intro u hu
    unfold tier1Core
    rw [h u hu]
  unfold tier1At
  cases ho : stripLit ("overall".data) s with
  | none => exact hcore s (List.suffix_refl s)
  | some r =>
    cases hw : dropWS1 r with
    | none => simp [hw]
    | some r' =>
      simp only [hw]
      exact hcore r' ((dropWS1_suffix hw).trans (stripLit_suffix ho))

lemma searchAt_tier1_none {t : List Char}
    (h : ∀ r, r <:+ t → stripLit ("compliance".data) r = none) :
    searchAt tier1At t = none :=
  (searchAt_eq_none_iff tier1At t).mpr
    (fun _ hs => tier1At_eq_none_of_noCompliance (fun r hr => h r (hr.trans hs)))

/-- Tier-2 match at a position where a tier-3 `\*\*non[- ]?compliant\*\*`
occurrence starts. -/
lemma tier2At_of_matchNC {u r₂ t : List Char}
    (h : matchNonCompliant ('n' :: 'o' :: 'n' :: u) = some r₂)
    (h2 : stripLit ("**".data) r₂ = some t) :
    tier2At ("**".data ++ ('n' :: 'o' :: 'n' :: u)) = some Verdict.nonCompliant := by
  have e1 : stripLit ("**".data) ("**".data ++ ('n' :: 'o' :: 'n' :: u))
      = some ('n' :: 'o' :: 'n' :: u) := stripLit_self_append _ _
  have e2 : stripLit ("rating:".data) ('n' :: 'o' :: 'n' :: u) = none := by
    simp [stripLit]
  simp only [tier2At, matchVerdictPhrase, e1, e2, h, h2]

lemma tier2At_of_tryNC {s r : List Char} (h : tryNCAt s = some r) :
    ∃ v, tier2At s = some v := by
  cases h1 : stripLit ("**".data) s with
  | none => simp [tryNCAt, h1] at h
  | some r₁ =>
    cases h2 : matchNonCompliant r₁ with
    | none => simp [tryNCAt, h1, h2] at h
    | some r₂ =>
      simp only [tryNCAt, h1, h2] at h
      have hdec := stripLit_some_decomp h1
      have hnon : ∃ u, r₁ = 'n' :: 'o' :: 'n' :: u := by
        cases h3 : stripLit ("non".data) r₁ with
        | none => simp [matchNonCompliant, h3] at h2
        | some u =>
          have := stripLit_some_decomp h3
          exact ⟨u, by simpa using this⟩
      obtain ⟨u, rfl⟩ := hnon
      subst hdec
      exact ⟨Verdict.nonCompliant, tier2At_of_matchNC h2 h⟩

lemma tier2At_of_tryC {s r : List Char} (h : tryCAt s = some r) :
    ∃ v, tier2At s = some v := by
  unfold tryCAt at h
  rw [stripLit_some_decomp h]
  refine ⟨Verdict.compliant, ?_⟩
  simp [tier2At, stripLit, matchVerdictPhrase, matchNonCompliant, matchPartially]

lemma tier2At_of_tryPC {s r : List Char} (h : tryPCAt s = some r) :
    ∃ v, tier2At s = some v := by
  unfold tryPCAt at h
  rw [stripLit_some_decomp h]
  refine ⟨Verdict.partiallyCompliant, ?_⟩
  simp [tier2At, stripLit, matchVerdictPhrase, matchNonCompliant, matchPartially,
    dropWS1, dropWS, isPyWS]

/-- When the per-position pattern fails at every suffix, findall counts
nothing. -/
lemma countMatchesGo_eq_zero {patternAt : List Char → Option (List Char)} :
    ∀ (fuel : Nat) (t : List Char), (∀ s, s <:+ t → patternAt s = none) →
      countMatchesGo patternAt fuel t = 0 := by
  intro fuel
  induction fuel with
  | zero => intro t h; rfl
  | succ n ih =>
    intro t h
    cases t with
    | nil => rfl
    | cons c rest =>
      rw [countMatchesGo, h (c :: rest) (List.suffix_refl _)]
      exact ih rest (fun s hs => h s (hs.trans (List.suffix_cons c rest)))

/-! ### Lemmas about the header-scanning loop -/

lemma pyStartsWith_decomp {lit l : List Char} (h : pyStartsWith lit l = true) :
    ∃ r, l = lit ++ r := by
  unfold pyStartsWith at h
  obtain ⟨r, hr⟩ := List.isPrefixOf_iff_prefix.mp h
  exact ⟨r, hr.symm⟩

lemma pyStartsWith_false_of_head_ne {c₁ c₂ : Char} {t₁ t₂ l : List Char}
    (h : pyStartsWith (c₁ :: t₁) l = true) (hne : c₂ ≠ c₁) :
    pyStartsWith (c₂ :: t₂) l = false := by
  obtain ⟨r, rfl⟩ := pyStartsWith_decomp h
  by_contra hb
  have hb' : pyStartsWith (c₂ :: t₂) ((c₁ :: t₁) ++ r) = true :=
    Bool.not_eq_false _ ▸ hb
  obtain ⟨r', hr'⟩ := pyStartsWith_decomp hb'
  simp only [List.cons_append] at hr'
  injection hr' with h5 h6
  exact hne h5.symm

/-- Without any `==========` separator line, the header loop scans every
line, a later `Key: ` line overwriting an earlier one, and never sets
`headerEnd`. -/
lemma headerScanGo_no_sep :
    ∀ (lines : List (List Char)) (i : Nat) (st : HeaderScan),
      (∀ l ∈ lines, pyStartsWith (List.replicate 10 '=') l = false) →
      headerScanGo lines i st =
        { agentName := lines.foldl (fun acc l =>
            if pyStartsWith ("Agent: ".data) l then l.drop 7 else acc) st.agentName,
          agentId := lines.foldl (fun acc l =>
            if pyStartsWith ("ID: ".data) l then l.drop 4 else acc) st.agentId,
          logFile := lines.foldl (fun acc l =>
            if pyStartsWith ("Log file: ".data) l then
              (if l.drop 10 = "None".data then none else some (l.drop 10))
            else acc) st.logFile,
          regulation := lines.foldl (fun acc l =>
            if pyStartsWith ("Regulation: ".data) l then l.drop 12 else acc) st.regulation,
          headerEnd := st.headerEnd } := by
  intro lines
  induction lines with
  | nil => intro i st h; rfl
  | cons line rest ih =>
    intro i st h
    have hrest : ∀ l ∈ rest, pyStartsWith (List.replicate 10 '=') l = false :=
      fun l hl => h l (List.mem_cons_of_mem _ hl)
    have hsep : pyStartsWith (List.replicate 10 '=') line = false :=
      h line (List.mem_cons_self _ _)
    by_cases h1 : pyStartsWith ("Agent: ".data) line = true
    · have e2 : pyStartsWith ("ID: ".data) line = false :=
        pyStartsWith_false_of_head_ne h1 (by decide)
      have e3 : pyStartsWith ("Log file: ".data) line = false :=
        pyStartsWith_false_of_head_ne h1 (by decide)
      have e4 : pyStartsWith ("Regulation: ".data) line = false :=
        pyStartsWith_false_of_head_ne h1 (by decide)
      rw [headerScanGo, if_pos h1, ih (i + 1) _ hrest]
      simp [List.foldl_cons, h1, e2, e3, e4]
    · rw [Bool.not_eq_true] at h1
      by_cases h2 : pyStartsWith ("ID: ".data) line = true
      · have e1 : pyStartsWith ("Agent: ".data) line = false :=
          pyStartsWith_false_of_head_ne h2 (by decide)
        have e3 : pyStartsWith ("Log file: ".data) line = false :=
          pyStartsWith_false_of_head_ne h2 (by decide)
        have e4 : pyStartsWith ("Regulation: ".data) line = false :=
          pyStartsWith_false_of_head_ne h2 (by decide)
        rw [headerScanGo, if_neg (by simp [e1]), if_pos h2, ih (i + 1) _ hrest]
        simp [List.foldl_cons, e1, h2, e3, e4]
      · rw [Bool.not_eq_true] at h2
        by_cases h3 : pyStartsWith ("Log file: ".data) line = true
        · have e4 : pyStartsWith ("Regulation: ".data) line = false :=
            pyStartsWith_false_of_head_ne h3 (by decide)
          rw [headerScanGo, if_neg (by simp [h1]), if_neg (by simp [h2]),
            if_pos h3, ih (i + 1) _ hrest]
          simp [List.foldl_cons, h1, h2, h3, e4]
        · rw [Bool.not_eq_true] at h3
          by_cases h4 : pyStartsWith ("Regulation: ".data) line = true
          · rw [headerScanGo, if_neg (by simp [h1]), if_neg (by simp [h2]),
              if_neg (by simp [h3]), if_pos h4, ih (i + 1) _ hrest]
            simp [List.foldl_cons, h1, h2, h3, h4]
          · rw [Bool.not_eq_true] at h4
            rw [headerScanGo, if_neg (by simp [h1]), if_neg (by simp [h2]),
              if_neg (by simp [h3]), if_neg (by simp [h4]),
              if_neg (by rw [hsep]; simp), ih (i + 1) _ hrest]
            simp [List.foldl_cons, h1, h2, h3, h4]

/-! ### Lemmas about filename recovery -/

lemma rsplitUnderscoreOnce_shaped {id reg : List Char} (hreg : '_' ∉ reg) :
    rsplitUnderscoreOnce (id ++ '_' :: reg) = some (id, reg) := by
  have hrev : (id ++ '_' :: reg).reverse = reg.reverse ++ '_' :: id.reverse := by
    simp [List.reverse_append]
  have hall : ∀ x ∈ reg.reverse, (!(x = '_')) = true := by
    intro x hx
    have hx' : x ∈ reg := List.mem_reverse.mp hx
    simp only [Bool.not_eq_eq_eq_not, Bool.not_true, decide_eq_false_iff_not]
    exact fun he => hreg (he ▸ hx')
  have hdropreg : reg.reverse.dropWhile (fun c => !(c = '_')) = [] :=
    List.dropWhile_eq_nil_iff.mpr hall
  have hdrop : (id ++ '_' :: reg).reverse.dropWhile (fun c => !(c = '_'))
      = '_' :: id.reverse := by
    rw [hrev, List.dropWhile_append, hdropreg]
    simp [List.dropWhile_cons]
  have htake : (id ++ '_' :: reg).reverse.takeWhile (fun c => !(c = '_'))
      = reg.reverse := by
    rw [hrev, List.takeWhile_append]
    have : reg.reverse.takeWhile (fun c => !(c = '_')) = reg.reverse :=
      List.takeWhile_eq_self_iff.mpr hall
    rw [this]
    simp [List.takeWhile_cons]
  rw [rsplitUnderscoreOnce, hdrop, htake]
  simp

lemma recoverFromStem_shaped {id reg : List Char} (hreg : '_' ∉ reg)
    (hup : pyIsUpper reg = true) :
    recoverFromStem ((id ++ '_' :: reg) ++ "_analysis".data) = some (id, reg) := by
  have hend : pyEndsWith ("_analysis".data) ((id ++ '_' :: reg) ++ "_analysis".data)
      = true := by
    unfold pyEndsWith
    rw [List.reverse_append]
    exact List.isPrefixOf_iff_prefix.mpr (List.prefix_append _ _)
  have hlen : ((id ++ '_' :: reg) ++ "_analysis".data).length - 9
      = (id ++ '_' :: reg).length := by
    rw [List.length_append]
    simp
  have htake : ((id ++ '_' :: reg) ++ "_analysis".data).take
      (((id ++ '_' :: reg) ++ "_analysis".data).length - 9) = id ++ '_' :: reg := by
    rw [hlen]
    exact List.take_left _ _
  have hmap : reg.map (fun c => if c = '_' then '-' else c) = reg := by
    have hcongr : ∀ x ∈ reg, (if x = '_' then '-' else x) = x := by
      intro x hx
      refine if_neg (fun he => hreg ?_)
      rw [← he]
      exact hx
    rw [List.map_congr_left hcongr]
    simp
  rw [recoverFromStem, if_pos hend, htake, rsplitUnderscoreOnce_shaped hreg]
  simp [hup, hmap]

/-! ### Order sensitivity of the tier-2 search -/

/-- Positions at which the pattern fails can be skipped by the leftmost
search: if no match starts inside `u`, searching `u ++ w` is searching `w`. -/
lemma searchAt_append_of_none {pat : List Char → Option Verdict} {u w : List Char}
    (h : ∀ s, s ≠ [] → s <:+ u → pat (s ++ w) = none) :
    searchAt pat (u ++ w) = searchAt pat w := by
  induction u with
  | nil => rfl
  | cons c u' ih =>
    have hc : pat ((c :: u') ++ w) = none :=
      h (c :: u') (by simp) (List.suffix_refl _)
    have h' : ∀ s, s ≠ [] → s <:+ u' → pat (s ++ w) = none :=
      fun s hne hs => h s hne (hs.trans (List.suffix_cons c u'))
    simp only [List.cons_append] at hc ⊢
    simp only [searchAt, hc]
    exact ih h'

lemma tier2At_pcLit (r : List Char) :
    tier2At ("**partially compliant**".data ++ r) = some Verdict.partiallyCompliant := by
  simp [tier2At, stripLit, matchVerdictPhrase, matchNonCompliant, matchPartially,
    dropWS1, dropWS, isPyWS]

lemma tier2At_ncLit (r : List Char) :
    tier2At ("**non-compliant**".data ++ r) = some Verdict.nonCompliant := by
  simp [tier2At, stripLit, matchVerdictPhrase, matchNonCompliant, matchPartially,
    dropWS1, dropWS, isPyWS]

lemma searchAt_cons_some {pat : List Char → Option Verdict} {c : Char}
    {rest : List Char} {v : Verdict} (h : pat (c :: rest) = some v) :
    searchAt pat (c :: rest) = some v := by
  simp only [searchAt, h]

lemma searchAt_tier2_pcLit (r : List Char) :
    searchAt tier2At ("**partially compliant**".data ++ r)
      = some Verdict.partiallyCompliant :=
  searchAt_cons_some (tier2At_pcLit r)

lemma searchAt_tier2_ncLit (r : List Char) :
    searchAt tier2At ("**non-compliant**".data ++ r) = some Verdict.nonCompliant :=
  searchAt_cons_some (tier2At_ncLit r)

/-! ## Aggregator (`webapp.py`, `group_by_agent`) -/

/-- One entry of an agent's `regulations` list (webapp.py lines 802-807). -/
structure RegulationEntry where
  name : List Char
  rating : List Char
  ratingClass : List Char
  ratingShort : List Char
deriving DecidableEq

/-- One agent view dict built by `group_by_agent` (webapp.py lines 794-811). -/
structure AgentGroup where
  id : List Char
  name : List Char
  hasLog : Bool
  regulations : List RegulationEntry
  byRegulation : List (List Char × ParsedAnalysis)
  analysisCount : Nat
deriving DecidableEq

/-- Python dict assignment `d[k] = v` on an insertion-ordered association
list: overwrite in place when the key exists, else append. -/
def dictSet (d : List (List Char × ParsedAnalysis)) (k : List Char)
    (v : ParsedAnalysis) : List (List Char × ParsedAnalysis) :=
  if d.any (fun kv => kv.1 = k) then
    d.map (fun kv => if kv.1 = k then (k, v) else kv)
  else d ++ [(k, v)]

/-- The per-report mutation of an agent group (webapp.py lines 802-811):
append the regulation entry, set the by-regulation mapping, bump the count,
and set `has_log` to true when the report had a log. -/
def updateGroup (g : AgentGroup) (a : ParsedAnalysis) : AgentGroup :=
  { g with
    regulations := g.regulations ++
      [{ name := a.regulation, rating := a.rating, ratingClass := a.ratingClass,
         ratingShort := a.ratingShort }],
    byRegulation := dictSet g.byRegulation a.regulation a,
    analysisCount := g.analysisCount + 1,
    hasLog := g.hasLog || a.hasLog }

/-- The fresh group created on first sight of an agent id
(webapp.py lines 794-801). -/
def freshGroup (a : ParsedAnalysis) : AgentGroup :=
  { id := a.agentId, name := a.agentName, hasLog := a.hasLog,
    regulations := [], byRegulation := [], analysisCount := 0 }

/-- One iteration of the grouping loop (webapp.py lines 791-811).  Python
dicts preserve insertion order, so a newly seen agent id is appended at the
end of the group list. -/
def groupStep (agents : List AgentGroup) (a : ParsedAnalysis) : List AgentGroup :=
  if agents.any (fun g => g.id = a.agentId) then
    agents.map (fun g => if g.id = a.agentId then updateGroup g a else g)
  else agents ++ [updateGroup (freshGroup a) a]

/-- `group_by_agent` (webapp.py lines 788-817): group the analyses by agent
id, sort each agent's regulation list by regulation name, and return the
groups sorted by lowercased display name. -/
def group_by_agent (analyses : List ParsedAnalysis) : List AgentGroup :=
  let grouped := analyses.foldl groupStep []
  let grouped := grouped.map (fun g =>
    { g with regulations := sortByKey (fun r => String.mk r.name) g.regulations })
  sortByKey (fun g => String.mk (pyLower g.name)) grouped

/-! ### Grouping-loop invariant -/

/-- Invariant of the grouping loop: every group's `hasLog` is the
disjunction over the reports seen so far with its id, and the group ids are
exactly the agent ids seen so far. -/
def GroupInv (gs : List AgentGroup) (seen : List ParsedAnalysis) : Prop :=
  (∀ g ∈ gs, (g.hasLog = true ↔ ∃ a ∈ seen, a.agentId = g.id ∧ a.hasLog = true)) ∧
    ∀ id : List Char, (∃ g ∈ gs, g.id = id) ↔ ∃ a ∈ seen, a.agentId = id

lemma groupStep_inv {gs : List AgentGroup} {seen : List ParsedAnalysis}
    (h : GroupInv gs seen) (a : ParsedAnalysis) :
    GroupInv (groupStep gs a) (seen ++ [a]) := by
  obtain ⟨hlog, hids⟩ := h
  by_cases hin : gs.any (fun g => g.id = a.agentId) = true
  · rw [groupStep, if_pos hin]
    constructor
    · intro g' hg'
      rcases List.mem_map.mp hg' with ⟨g, hg, rfl⟩
      by_cases hid : g.id = a.agentId
      · rw [if_pos hid]
        have hidg : (updateGroup g a).id = g.id := rfl
        have hlg : (updateGroup g a).hasLog = (g.hasLog || a.hasLog) := rfl
        rw [hidg, hlg]
        constructor
        · intro hor
          rcases Bool.or_eq_true_iff.mp hor with h1 | h1
          · rcases (hlog g hg).mp h1 with ⟨b, hb, hb1, hb2⟩
            exact ⟨b, List.mem_append_left _ hb, hb1, hb2⟩
          · exact ⟨a, List.mem_append_right _ (List.mem_singleton_self a),
              hid ▸ rfl, h1⟩
        · rintro ⟨b, hb, hb1, hb2⟩
          rcases List.mem_append.mp hb with hb | hb
          · exact Bool.or_eq_true_iff.mpr
              (Or.inl ((hlog g hg).mpr ⟨b, hb, hb1, hb2⟩))
          · rcases List.mem_singleton.mp hb with rfl
            exact Bool.or_eq_true_iff.mpr (Or.inr hb2)
      · rw [if_neg hid]
        constructor
        · intro h1
          rcases (hlog g hg).mp h1 with ⟨b, hb, hb1, hb2⟩
          exact ⟨b, List.mem_append_left _ hb, hb1, hb2⟩
        · rintro ⟨b, hb, hb1, hb2⟩
          rcases List.mem_append.mp hb with hb | hb
          · exact (hlog g hg).mpr ⟨b, hb, hb1, hb2⟩
          · rcases List.mem_singleton.mp hb with rfl
            exact absurd (hb1.symm.trans rfl) (fun he => hid (he ▸ rfl))
    · intro id
      constructor
      · rintro ⟨g', hg', rfl⟩
        rcases List.mem_map.mp hg' with ⟨g, hg, rfl⟩
        by_cases hid : g.id = a.agentId
        · rw [if_pos hid]
          rcases (hids g.id).mp ⟨g, hg, rfl⟩ with ⟨b, hb, hb1⟩
          exact ⟨b, List.mem_append_left _ hb, by
            show b.agentId = (updateGroup g a).id
            exact hb1⟩
        · rw [if_neg hid]
          rcases (hids g.id).mp ⟨g, hg, rfl⟩ with ⟨b, hb, hb1⟩
          exact ⟨b, List.mem_append_left _ hb, hb1⟩
      · rintro ⟨b, hb, rfl⟩
        rcases List.mem_append.mp hb with hb | hb
        · rcases (hids b.agentId).mpr ⟨b, hb, rfl⟩ with ⟨g, hg, hg1⟩
          refine ⟨if g.id = a.agentId then updateGroup g a else g,
            List.mem_map_of_mem _ hg, ?_⟩
          by_cases hid : g.id = a.agentId
          · rw [if_pos hid]
            show (updateGroup g a).id = b.agentId
            exact hg1
          · rw [if_neg hid]
            exact hg1
        · rcases List.mem_singleton.mp hb with rfl
          rcases List.any_eq_true.mp hin with ⟨g, hg, hgid⟩
          have hgid' : g.id = b.agentId := by simpa using hgid
          refine ⟨if g.id = b.agentId then updateGroup g b else g,
            List.mem_map_of_mem _ hg, ?_⟩
          rw [if_pos hgid']
          exact hgid'
  · rw [groupStep, if_neg hin]
    have hnone : ∀ g ∈ gs, g.id ≠ a.agentId := by
      intro g hg he
      exact hin (List.any_eq_true.mpr ⟨g, hg, by simpa using he⟩)
    have hnoseen : ¬∃ b ∈ seen, b.agentId = a.agentId := by
      rintro ⟨b, hb, hb1⟩
      rcases (hids a.agentId).mpr ⟨b, hb, hb1⟩ with ⟨g, hg, hg1⟩
      exact hnone g hg hg1
    constructor
    · intro g' hg'
      rcases List.mem_append.mp hg' with hg | hg
      · constructor
        · intro h1
          rcases (hlog g' hg).mp h1 with ⟨b, hb, hb1, hb2⟩
          exact ⟨b, List.mem_append_left _ hb, hb1, hb2⟩
        · rintro ⟨b, hb, hb1, hb2⟩
          rcases List.mem_append.mp hb with hb | hb
          · exact (hlog g' hg).mpr ⟨b, hb, hb1, hb2⟩
          · rcases List.mem_singleton.mp hb with rfl
            exact absurd hb1.symm (hnone g' hg)
      · rcases List.mem_singleton.mp hg with rfl
        have hidnew : (updateGroup (freshGroup a) a).id = a.agentId := rfl
        have hlognew : (updateGroup (freshGroup a) a).hasLog = (a.hasLog || a.hasLog) := rfl
        rw [hidnew, hlognew, Bool.or_self]
        constructor
        · intro h1
          exact ⟨a, List.mem_append_right _ (List.mem_singleton_self a), rfl, h1⟩
        · rintro ⟨b, hb, hb1, hb2⟩
          rcases List.mem_append.mp hb with hb | hb
          · exact absurd ⟨b, hb, hb1⟩ hnoseen
          · rcases List.mem_singleton.mp hb with rfl
            exact hb2
    · intro id
      constructor
      · rintro ⟨g', hg', rfl⟩
        rcases List.mem_append.mp hg' with hg | hg
        · rcases (hids g'.id).mp ⟨g', hg, rfl⟩ with ⟨b, hb, hb1⟩
          exact ⟨b, List.mem_append_left _ hb, hb1⟩
        · rcases List.mem_singleton.mp hg with rfl
          exact ⟨a, List.mem_append_right _ (List.mem_singleton_self a), rfl⟩
      · rintro ⟨b, hb, rfl⟩
        rcases List.mem_append.mp hb with hb | hb
        · rcases (hids b.agentId).mpr ⟨b, hb, rfl⟩ with ⟨g, hg, hg1⟩
          exact ⟨g, List.mem_append_left _ hg, hg1⟩
        · rcases List.mem_singleton.mp hb with rfl
          exact ⟨updateGroup (freshGroup b) b,
            List.mem_append_right _ (List.mem_singleton_self _), rfl⟩

lemma groupFold_inv (analyses : List ParsedAnalysis) :
    ∀ (gs : List AgentGroup) (seen : List ParsedAnalysis), GroupInv gs seen →
      GroupInv (analyses.foldl groupStep gs) (seen ++ analyses) := by
  induction analyses with
  | nil => intro gs seen h; simpa using h
  | cons a l ih =>
    intro gs seen h
    have h1 := ih (groupStep gs a) (seen ++ [a]) (groupStep_inv h a)
    simpa using h1

/-! ## Claim theorems for the Name Matcher and the Fan-Out Scheduler -/

/-- C7: `sanitize` is idempotent — for every string `x`,
`sanitize(sanitize(x))` equals `sanitize(x)`; in particular
`sanitize("My Agent--v2")` returns `"My_Agent_v2"`. -/
theorem c7_sanitize_idempotent :
    (∀ x : List Char,
        sanitize_for_filename (sanitize_for_filename x) = sanitize_for_filename x) ∧
      sanitize_for_filename ("My Agent--v2".data) = "My_Agent_v2".data :=
  ⟨sanitize_idem, by decide⟩

/-- C4 counterexample: the claim says a candidate matches when the
candidate's base name, run through the same sanitize function, equals
`sanitize(agentName)`.  For the agent name `"My Agent"` and the candidate
stem `"My Agent"` that rule holds (both sanitize to `"My_Agent"`), yet
`find_log_file` compares the raw candidate stem and returns none. -/
theorem c4_matcher_counterexample :
    specMatchRule ("My Agent".data) ("My Agent".data) = true ∧
      find_log_file ("My Agent".data) [("My Agent".data)] = none := by
  constructor
  · decide
  · decide

/-- `list.find?` returns the first element satisfying the predicate. -/
lemma find?_first {α : Type} (p : α → Bool) :
    ∀ (pre : List α) (x : α) (post : List α), (∀ c ∈ pre, p c = false) →
      p x = true → (pre ++ x :: post).find? p = some x := by
  intro pre
  induction pre with
  | nil =>
    intro x post h hp
    rw [List.nil_append]
    simp [List.find?_cons, hp]
  | cons c pre' ih =>
    intro x post h hp
    have hc : p c = false := h c (List.mem_cons_self c pre')
    rw [List.cons_append]
    simp only [List.find?_cons, hc]
    exact ih x post (fun d hd => h d (List.mem_cons_of_mem c hd)) hp

/-- C4 (amended): the matcher returns a candidate exactly when the
candidate's raw base name — not its sanitized form — lowercased, equals the
lowercased `sanitize(agentName)`, or the two are equal after additionally
stripping all `'_'` characters from both sides; the first candidate in
enumeration order satisfying this wins; when no candidate satisfies it, the
matcher returns none and never raises an error. -/
theorem c4_matcher_raw_stem_rule :
    (∀ (agentName : List Char) (candidates : List (List Char)),
        find_log_file agentName candidates = none ↔
          ∀ stem ∈ candidates,
            logNameMatches (sanitize_for_filename agentName) stem = false)
    ∧ (∀ (agentName : List Char) (candidates : List (List Char)) (stem : List Char),
        find_log_file agentName candidates = some stem →
          stem ∈ candidates ∧
            logNameMatches (sanitize_for_filename agentName) stem = true)
    ∧ ∀ (agentName : List Char) (pre : List (List Char)) (stem : List Char)
        (post : List (List Char)),
        (∀ c ∈ pre, logNameMatches (sanitize_for_filename agentName) c = false) →
        logNameMatches (sanitize_for_filename agentName) stem = true →
        find_log_file agentName (pre ++ stem :: post) = some stem := by
  refine ⟨?_, ?_, ?_⟩
  · intro agentName candidates
    unfold find_log_file
    rw [List.find?_eq_none]
    constructor
    · intro h stem hmem
      exact Bool.not_eq_true _ ▸ (Bool.eq_false_iff.mpr (h stem hmem))
    · intro h stem hmem
      simp [h stem hmem]
  · intro agentName candidates stem h
    exact ⟨List.mem_of_find?_eq_some h, List.find?_some h⟩
  · intro agentName pre stem post hpre hstem
    exact find?_first _ pre stem post hpre hstem

/-- C4 witness: with a non-matching candidate first, the matcher returns
the first raw-stem match, skipping the earlier candidate. -/
theorem c4_matcher_raw_stem_rule_witness :
    find_log_file ("My Agent".data)
        ([("nope".data)] ++ ("my_agent".data) :: [("MyAgent".data)])
      = some ("my_agent".data) :=
  c4_matcher_raw_stem_rule.2.2 ("My Agent".data) [("nope".data)] ("my_agent".data)
    [("MyAgent".data)] (by decide) (by decide)

/-- C1: for every ordered sequence of work items and every invoke function,
the scheduler at any concurrency level returns the WorkResult sequence
sorted by the items' submission index; in particular two runs at different
concurrency levels (hence with different completion orders) return
identical sequences. -/
theorem c1_scheduler_order_independent
    (invoke : AgentInfo → SubprocessOutcome) (timing : AgentInfo → Nat)
    (p₁ p₂ : Int) (agents : List AgentInfo)
    (co₁ co₂ : List (Nat × AgentInfo))
    (h₁ : co₁.Perm (List.enumFrom 1 agents))
    (h₂ : co₂.Perm (List.enumFrom 1 agents)) :
    runScheduler invoke timing p₁ agents co₁
        = (List.enumFrom 1 agents).map (analyze_agent invoke timing)
      ∧ runScheduler invoke timing p₁ agents co₁
        = runScheduler invoke timing p₂ agents co₂
      ∧ (runScheduler invoke timing p₁ agents co₁).Pairwise
          (fun a b => a.idx < b.idx) := by
  have e₁ := runScheduler_eq_submission invoke timing p₁ agents h₁
  have e₂ := runScheduler_eq_submission invoke timing p₂ agents h₂
  refine ⟨e₁, e₁.trans e₂.symm, ?_⟩
  rw [e₁]
  exact submission_pairwise_idx invoke timing agents

/-- Demo agents for the scheduler witnesses. -/
def demoAgentA : AgentInfo :=
  { id := "a1".data, name := "Agent One".data, logFile := some ("agent_one".data) }

/-- Second demo agent. -/
def demoAgentB : AgentInfo :=
  { id := "b2".data, name := "Agent Two".data, logFile := none }

/-- Third demo agent. -/
def demoAgentC : AgentInfo :=
  { id := "c3".data, name := "Agent Three".data, logFile := none }

/-- Demo invoker: the second agent's subprocess exits non-zero with empty
stderr, the others succeed. -/
def demoInvoke (a : AgentInfo) : SubprocessOutcome :=
  if a.id = "b2".data then .completed 1 [] []
  else .completed 0 ("report text".data) []

/-- Demo wall-clock durations. -/
def demoTiming (a : AgentInfo) : Nat := a.id.length

/-- C1 witness: concurrency 2 and 8 on the same three-agent input with two
different completion orders agree with the submission order. -/
theorem c1_scheduler_order_independent_witness :
    runScheduler demoInvoke demoTiming 2 [demoAgentA, demoAgentB, demoAgentC]
        [(3, demoAgentC), (1, demoAgentA), (2, demoAgentB)]
      = (List.enumFrom 1 [demoAgentA, demoAgentB, demoAgentC]).map
          (analyze_agent demoInvoke demoTiming) :=
  (c1_scheduler_order_independent demoInvoke demoTiming 2 8
    [demoAgentA, demoAgentB, demoAgentC]
    [(3, demoAgentC), (1, demoAgentA), (2, demoAgentB)]
    [(2, demoAgentB), (3, demoAgentC), (1, demoAgentA)]
    (by decide) (by decide)).1

/-- C6: a work item whose invocation exits non-zero yields a WorkResult
with `success = false` and the invoker's stderr (or a generic message when
stderr is empty) as output; all sibling items still appear, exactly one
result per item, and the summary is still produced over the full set. -/
theorem c6_invocation_failure_isolated
    (invoke : AgentInfo → SubprocessOutcome) (timing : AgentInfo → Nat)
    (parallelArg : Int) (agents : List AgentInfo)
    (completionOrder : List (Nat × AgentInfo))
    (hperm : completionOrder.Perm (List.enumFrom 1 agents))
    (i : Nat) (a : AgentInfo) (hmem : (i, a) ∈ List.enumFrom 1 agents)
    (rc : Int) (stdout stderr : List Char)
    (hinv : invoke a = .completed rc stdout stderr) (hrc : rc ≠ 0) :
    runScheduler invoke timing parallelArg agents completionOrder
        = (List.enumFrom 1 agents).map (analyze_agent invoke timing)
      ∧ (runScheduler invoke timing parallelArg agents completionOrder).length
        = agents.length
      ∧ (analyze_agent invoke timing (i, a)).success = false
      ∧ (analyze_agent invoke timing (i, a)).output
        = (if stderr = [] then "Unknown error".data else stderr)
      ∧ analyze_agent invoke timing (i, a)
        ∈ runScheduler invoke timing parallelArg agents completionOrder
      ∧ (summarize (runScheduler invoke timing parallelArg agents completionOrder)).total
        = agents.length := by
  have hcanon := runScheduler_eq_submission invoke timing parallelArg agents hperm
  have hlen : (runScheduler invoke timing parallelArg agents completionOrder).length
      = agents.length := by
    rw [hcanon, List.length_map, List.enumFrom_length]
  refine ⟨hcanon, hlen, ?_, ?_, ?_, ?_⟩
  · show (run_policy_analyzer (invoke a) (timing a)).1 = false
    rw [hinv]
    simp [run_policy_analyzer, hrc]
  · show (run_policy_analyzer (invoke a) (timing a)).2.1 = _
    rw [hinv]
    simp [run_policy_analyzer, hrc]
  · rw [hcanon]
    exact List.mem_map_of_mem _ hmem
  · show (runScheduler invoke timing parallelArg agents completionOrder).length
      = agents.length
    exact hlen

/-- C6 witness: the failing demo agent (non-zero exit, empty stderr) is
reported with the generic message while its siblings complete. -/
theorem c6_invocation_failure_isolated_witness :
    (analyze_agent demoInvoke demoTiming (2, demoAgentB)).success = false ∧
      (analyze_agent demoInvoke demoTiming (2, demoAgentB)).output
        = "Unknown error".data :=
  ⟨(c6_invocation_failure_isolated demoInvoke demoTiming 1
      [demoAgentA, demoAgentB, demoAgentC]
      (List.enumFrom 1 [demoAgentA, demoAgentB, demoAgentC]) (List.Perm.refl _)
      2 demoAgentB (by decide) 1 [] [] (by decide) (by decide)).2.2.1,
   by
    have h := (c6_invocation_failure_isolated demoInvoke demoTiming 1
      [demoAgentA, demoAgentB, demoAgentC]
      (List.enumFrom 1 [demoAgentA, demoAgentB, demoAgentC]) (List.Perm.refl _)
      2 demoAgentB (by decide) 1 [] [] (by decide) (by decide)).2.2.2.1
    simpa using h⟩

/-! ## Claim theorems for the Report Parser and Verdict Classifier -/

/-- C9: whenever neither the tier-1 compliance-rating-section pattern nor
the tier-2 emphasized-phrase pattern matches the lowercased text, every
occurrence the tier-3 voting patterns could count would also have matched
the tier-2 pattern, so all three counts are zero and the fallback vote
returns Unknown. -/
theorem c9_voting_tier_always_unknown (t : List Char)
    (h1 : searchAt tier1At t = none) (h2 : searchAt tier2At t = none) :
    countMatches tryNCAt t = 0 ∧ countMatches tryCAt t = 0 ∧
      countMatches tryPCAt t = 0 ∧ detectRating t = Verdict.unknown := by
  have hsuff : ∀ s, s <:+ t → tier2At s = none :=
    (searchAt_eq_none_iff tier2At t).mp h2
  have hnc : ∀ s, s <:+ t → tryNCAt s = none := by
    intro s hs
    cases htry : tryNCAt s with
    | none => rfl
    | some r =>
      obtain ⟨v, hv⟩ := tier2At_of_tryNC htry
      rw [hsuff s hs] at hv
      cases hv
  have hc : ∀ s, s <:+ t → tryCAt s = none := by
    intro s hs
    cases htry : tryCAt s with
    | none => rfl
    | some r =>
      obtain ⟨v, hv⟩ := tier2At_of_tryC htry
      rw [hsuff s hs] at hv
      cases hv
  have hpc : ∀ s, s <:+ t → tryPCAt s = none := by
    intro s hs
    cases htry : tryPCAt s with
    | none => rfl
    | some r =>
      obtain ⟨v, hv⟩ := tier2At_of_tryPC htry
      rw [hsuff s hs] at hv
      cases hv
  have e1 : countMatches tryNCAt t = 0 := countMatchesGo_eq_zero _ t hnc
  have e2 : countMatches tryCAt t = 0 := countMatchesGo_eq_zero _ t hc
  have e3 : countMatches tryPCAt t = 0 := countMatchesGo_eq_zero _ t hpc
  refine ⟨e1, e2, e3, ?_⟩
  simp only [detectRating, h1, h2, e1, e2, e3]
  norm_num

/-- C9 witness: a text with no recognizable phrase at all hits the fallback
and is classified Unknown. -/
theorem c9_voting_tier_always_unknown_witness :
    countMatches tryNCAt ("no rating anywhere.".data) = 0 ∧
      countMatches tryCAt ("no rating anywhere.".data) = 0 ∧
      countMatches tryPCAt ("no rating anywhere.".data) = 0 ∧
      detectRating ("no rating anywhere.".data) = Verdict.unknown :=
  c9_voting_tier_always_unknown ("no rating anywhere.".data) (by decide) (by decide)

/-- C2 counterexample: a body that contains `**Partially Compliant**` once
and `**Non-Compliant**` once, with no compliance-rating declaration section,
but with the non-compliant phrase first.  The claim demands
PartiallyCompliant irrespective of order, yet the tier-2 leftmost match
classifies it Non-Compliant. -/
theorem c2_tie_counterexample :
    countMatches tryPCAt (pyLower ("**Non-Compliant** but **Partially Compliant**".data)) = 1 ∧
      countMatches tryNCAt (pyLower ("**Non-Compliant** but **Partially Compliant**".data)) = 1 ∧
      searchAt tier1At (pyLower ("**Non-Compliant** but **Partially Compliant**".data)) = none ∧
      detectRating (pyLower ("**Non-Compliant** but **Partially Compliant**".data))
        = Verdict.nonCompliant := by
  refine ⟨by decide, by decide, by decide, by decide⟩

/-- C2 (amended): with no compliance-rating declaration section, the
verdict is decided by the leftmost tier-2 emphasized-phrase match, never by
the equal-count tie-break: for every lowercased body splitting as
`u ++ phrase ++ w` such that no tier-2 match starts inside `u`, the verdict
is PartiallyCompliant when that leftmost emphasized phrase is
`**partially compliant**` and NonCompliant when it is `**non-compliant**` —
so with both phrases present once each, whichever emphasized phrase occurs
first (possibly an earlier bare `**compliant**`) decides. -/
theorem c2_leftmost_phrase_wins :
    (∀ u w : List Char,
      searchAt tier1At (u ++ ("**partially compliant**".data ++ w)) = none →
      (∀ s, s ≠ [] → s <:+ u →
        tier2At (s ++ ("**partially compliant**".data ++ w)) = none) →
      detectRating (u ++ ("**partially compliant**".data ++ w))
        = Verdict.partiallyCompliant)
    ∧ ∀ u w : List Char,
      searchAt tier1At (u ++ ("**non-compliant**".data ++ w)) = none →
      (∀ s, s ≠ [] → s <:+ u →
        tier2At (s ++ ("**non-compliant**".data ++ w)) = none) →
      detectRating (u ++ ("**non-compliant**".data ++ w))
        = Verdict.nonCompliant := by
  constructor
  · intro u w h1 h2
    have hsearch : searchAt tier2At (u ++ ("**partially compliant**".data ++ w))
        = some Verdict.partiallyCompliant := by
      rw [searchAt_append_of_none h2]
      exact searchAt_tier2_pcLit w
    simp only [detectRating, h1, hsearch]
  · intro u w h1 h2
    have hsearch : searchAt tier2At (u ++ ("**non-compliant**".data ++ w))
        = some Verdict.nonCompliant := by
      rw [searchAt_append_of_none h2]
      exact searchAt_tier2_ncLit w
    simp only [detectRating, h1, hsearch]

/-- C2 witness: a concrete body in which the partially-compliant phrase is
the leftmost tier-2 match, with the non-compliant phrase further right. -/
theorem c2_leftmost_phrase_wins_witness :
    detectRating ("see ".data ++ ("**partially compliant**".data ++
        " and **non-compliant**".data)) = Verdict.partiallyCompliant :=
  c2_leftmost_phrase_wins.1 ("see ".data) (" and **non-compliant**".data)
    (by decide)
    (fun s hne hs =>
      (by decide : ∀ s ∈ ("see ".data).tails, s ≠ [] →
          tier2At (s ++ ("**partially compliant**".data ++
            " and **non-compliant**".data)) = none)
        s ((List.mem_tails _ _).mpr hs) hne)

/-- C3 counterexample: two artifacts with identical body text after the
separator but different `Agent:` header lines receive different verdicts —
the rating is computed from the full file content, header included, so it is
not a pure function of the body text. -/
theorem c3_header_influences_verdict_counterexample :
    (parse_analysis_file ("f1".data)
        ("Agent: Bob\n==========\nno findings.".data)).content
      = (parse_analysis_file ("f2".data)
        ("Agent: **Compliant** Bob\n==========\nno findings.".data)).content
    ∧ (parse_analysis_file ("f1".data)
        ("Agent: Bob\n==========\nno findings.".data)).rating
      ≠ (parse_analysis_file ("f2".data)
        ("Agent: **Compliant** Bob\n==========\nno findings.".data)).rating
    ∧ (parse_analysis_file ("f1".data)
        ("Agent: Bob\n==========\nno findings.".data)).ratingShort
      ≠ (parse_analysis_file ("f2".data)
        ("Agent: **Compliant** Bob\n==========\nno findings.".data)).ratingShort := by
  refine ⟨by decide, by decide, by decide⟩

/-- C3 (amended): the verdict is a pure function of the entire artifact text
(header lines included) and is not influenced by the filename: two
artifacts with identical full text receive the same rating, rating class
and short code, equal to the tiered detection on the lowercased full text. -/
theorem c3_verdict_pure_function_of_full_text (stem₁ stem₂ content : List Char) :
    (parse_analysis_file stem₁ content).rating
        = (parse_analysis_file stem₂ content).rating
    ∧ (parse_analysis_file stem₁ content).ratingClass
        = (parse_analysis_file stem₂ content).ratingClass
    ∧ (parse_analysis_file stem₁ content).ratingShort
        = (parse_analysis_file stem₂ content).ratingShort
    ∧ (parse_analysis_file stem₁ content).rating
        = verdictText (detectRating (pyLower content)) :=
  ⟨rfl, rfl, rfl, rfl⟩

/-- C5: when the header leaves `agentId` or `regulation` unset, parse
recovers them from a base name of the shape `{agentId}_{regulation}_analysis`
with a fully upper-case trailing segment, filling only fields still unset;
when recovery fails, `agentId` falls back to the raw base name and
`regulation` stays empty; the documented example recovers
`agent123` / `GDPR` from header-less text. -/
theorem c5_filename_recovery :
    (∀ (id reg content : List Char), id ≠ [] → '_' ∉ reg → pyIsUpper reg = true →
      (parse_analysis_file ((id ++ '_' :: reg) ++ "_analysis".data) content).agentId
          = (if (headerScan (content.splitOn '\n')).agentId = [] then id
             else (headerScan (content.splitOn '\n')).agentId)
        ∧ (parse_analysis_file ((id ++ '_' :: reg) ++ "_analysis".data) content).regulation
          = (if (headerScan (content.splitOn '\n')).regulation = [] then reg
             else (headerScan (content.splitOn '\n')).regulation))
    ∧ (∀ (stem content : List Char), recoverFromStem stem = none →
        (parse_analysis_file stem content).agentId
            = (if (headerScan (content.splitOn '\n')).agentId = [] then stem
               else (headerScan (content.splitOn '\n')).agentId)
          ∧ (parse_analysis_file stem content).regulation
            = (headerScan (content.splitOn '\n')).regulation)
    ∧ (parse_analysis_file ("agent123_GDPR_analysis".data) ("just text".data)).agentId
        = "agent123".data
    ∧ (parse_analysis_file ("agent123_GDPR_analysis".data) ("just text".data)).regulation
        = "GDPR".data := by
  refine ⟨?_, ?_, by decide, by decide⟩
  · intro id reg content hid hreg hup
    have hrec := @recoverFromStem_shaped id reg hreg hup
    by_cases hA : (headerScan (content.splitOn '\n')).agentId = []
    · constructor
      · simp only [parse_analysis_file, hrec, hA]
        simp [hid]
      · simp only [parse_analysis_file, hrec, hA]
        simp
    · by_cases hR : (headerScan (content.splitOn '\n')).regulation = []
      · constructor
        · simp only [parse_analysis_file, hrec, hA, hR]
          simp [hA]
        · simp only [parse_analysis_file, hrec, hA, hR]
          simp
      · constructor
        · simp only [parse_analysis_file, hA, hR]
          simp [hA]
        · simp only [parse_analysis_file, hA, hR]
          simp [hR]
  · intro stem content hrec
    by_cases hA : (headerScan (content.splitOn '\n')).agentId = []
    · constructor
      · simp only [parse_analysis_file, hrec, hA]
        simp
      · simp only [parse_analysis_file, hrec, hA]
        simp
    · constructor
      · simp only [parse_analysis_file, hrec, hA]
        simp [hA]
      · simp only [parse_analysis_file, hrec, hA]
        simp

/-- C5 witness: the general recovery statement applied to the documented
concrete shape with a header-less body. -/
theorem c5_filename_recovery_witness :
    (parse_analysis_file (("agent123".data ++ '_' :: "GDPR".data) ++ "_analysis".data)
        ("just text".data)).agentId
      = (if (headerScan (("just text".data).splitOn '\n')).agentId = []
         then "agent123".data
         else (headerScan (("just text".data).splitOn '\n')).agentId) :=
  (c5_filename_recovery.1 ("agent123".data) ("GDPR".data) ("just text".data)
    (by decide) (by decide) (by decide)).1

/-- C10: if the artifact text contains no line beginning with ten `=`
characters, parse still harvests header fields from every line with a
recognized `Key: ` prefix anywhere in the text, a later such line
overwriting an earlier one (last-match-wins folds over all lines), and the
returned body content equals the entire artifact text trimmed of leading
and trailing whitespace. -/
theorem c10_no_separator_full_harvest (stem content : List Char)
    (h : ∀ l ∈ content.splitOn '\n', pyStartsWith (List.replicate 10 '=') l = false) :
    (parse_analysis_file stem content).content = pyStrip content
    ∧ (headerScan (content.splitOn '\n')).agentName
        = (content.splitOn '\n').foldl (fun acc l =>
            if pyStartsWith ("Agent: ".data) l then l.drop 7 else acc) []
    ∧ (headerScan (content.splitOn '\n')).agentId
        = (content.splitOn '\n').foldl (fun acc l =>
            if pyStartsWith ("ID: ".data) l then l.drop 4 else acc) []
    ∧ (headerScan (content.splitOn '\n')).logFile
        = (content.splitOn '\n').foldl (fun acc l =>
            if pyStartsWith ("Log file: ".data) l then
              (if l.drop 10 = "None".data then none else some (l.drop 10))
            else acc) none
    ∧ (headerScan (content.splitOn '\n')).regulation
        = (content.splitOn '\n').foldl (fun acc l =>
            if pyStartsWith ("Regulation: ".data) l then l.drop 12 else acc) [] := by
  have hhs := headerScanGo_no_sep (content.splitOn '\n') 0
    { agentName := [], agentId := [], logFile := none, regulation := [],
      headerEnd := 0 } h
  have hEnd : (headerScan (content.splitOn '\n')).headerEnd = 0 := by
    rw [headerScan, hhs]
  refine ⟨?_, ?_, ?_, ?_, ?_⟩
  · show pyStrip (joinNL ((content.splitOn '\n').drop
        (headerScan (content.splitOn '\n')).headerEnd)) = pyStrip content
    rw [hEnd, List.drop_zero,
      show joinNL (content.splitOn '\n') = content from
        List.intercalate_splitOn content '\n']
  · rw [headerScan, hhs]
  · rw [headerScan, hhs]
  · rw [headerScan, hhs]
  · rw [headerScan, hhs]

/-- C10 witness: a separatorless artifact whose later `Agent:` line wins and
whose body is the whole text stripped. -/
theorem c10_no_separator_full_harvest_witness :
    (parse_analysis_file ("x".data)
        ("ID: x7\nAgent: A\nAgent: B\nbody".data)).content
      = pyStrip ("ID: x7\nAgent: A\nAgent: B\nbody".data) :=
  (c10_no_separator_full_harvest ("x".data)
    ("ID: x7\nAgent: A\nAgent: B\nbody".data) (by decide)).1

/-- C8: the aggregator returns the agent views sorted by display name
compared case-insensitively, each view's per-regulation list sorted by
regulation name, and each view's `hasLog` true exactly when at least one of
that agent's reports had a log. -/
theorem c8_group_by_agent_views (analyses : List ParsedAnalysis) :
    (group_by_agent analyses).Pairwise
        (fun g₁ g₂ => String.mk (pyLower g₁.name) ≤ String.mk (pyLower g₂.name))
    ∧ (∀ g ∈ group_by_agent analyses,
        g.regulations.Pairwise (fun r₁ r₂ => String.mk r₁.name ≤ String.mk r₂.name))
    ∧ ∀ g ∈ group_by_agent analyses,
        (g.hasLog = true ↔ ∃ a ∈ analyses, a.agentId = g.id ∧ a.hasLog = true) := by
  have hinv : GroupInv (analyses.foldl groupStep []) analyses := by
    have h0 : GroupInv ([] : List AgentGroup) [] := by
      constructor
      · intro g hg; cases hg
      · intro id
        constructor
        · rintro ⟨g, hg, _⟩; cases hg
        · rintro ⟨a, ha, _⟩; cases ha
    have h1 := groupFold_inv analyses [] [] h0
    simpa using h1
  have hmem : ∀ g, g ∈ group_by_agent analyses →
      g ∈ (analyses.foldl groupStep []).map (fun g =>
        { g with regulations := sortByKey (fun r => String.mk r.name) g.regulations }) := by
    intro g hg
    have hperm := sortByKey_perm (fun g : AgentGroup => String.mk (pyLower g.name))
      ((analyses.foldl groupStep []).map (fun g =>
        { g with regulations := sortByKey (fun r => String.mk r.name) g.regulations }))
    exact hperm.mem_iff.mp hg
  refine ⟨sortByKey_pairwise _ _, ?_, ?_⟩
  · intro g hg
    rcases List.mem_map.mp (hmem g hg) with ⟨g₀, hg₀, rfl⟩
    exact sortByKey_pairwise _ _
  · intro g hg
    rcases List.mem_map.mp (hmem g hg) with ⟨g₀, hg₀, rfl⟩
    exact hinv.1 g₀ hg₀

end PolicyAnalyzer
